import Mathlib

/-!
Verification development for the PyTorch Static Runtime core declared in
torch/csrc/jit/runtime/static/impl.h (StaticModuleOptions, StaticModule,
StaticRuntime and their bookkeeping tables).  The header is the authoritative
source; function bodies that live in the missing impl.cpp / memory_planner.h
are modelled from the specification, each such definition carrying a doc
comment that says so.
-/

namespace TorchJitStatic

/-- A runtime value.  The default-constructed C++ IValue() is the empty
(None) value; the model also carries integer scalars and integer tensors,
enough to execute small graphs. -/
inductive IValue where
  | empty : IValue
  | int : Int → IValue
  | tensor : List Int → IValue
deriving DecidableEq, Repr

/-- Graph values are identified by numeric ids (the model's stand-in for
`const Value*` pointers). -/
abbrev ValueId := Nat

/-- Operation kinds available to the model's kernel catalog.  `constant v`
models a prim::Constant node producing the payload `v`. -/
inductive OpKind where
  | constant : IValue → OpKind
  | add : OpKind
  | mul : OpKind
  | relu : OpKind
  | ident : OpKind
deriving DecidableEq, Repr

/-- A graph node: an operation, its input and output value ids, and the
operation catalog's may-alias annotations, each pair (oi, ii) declaring that
output number oi may share storage with input number ii. -/
structure GNode where
  op : OpKind
  inputs : List ValueId
  outputs : List ValueId
  aliasPairs : List (Nat × Nat)
deriving DecidableEq, Repr

/-- A topologically ordered dataflow graph. -/
structure Graph where
  inputs : List ValueId
  nodes : List GNode
  outputs : List ValueId
deriving DecidableEq, Repr

/-- StaticModuleOptions, from impl.h lines 19-32, with the default member
initializers of the source. -/
structure StaticModuleOptions where
  cleanup_activations : Bool := true
  enable_out_variant : Bool := true
  optimize_memory : Bool := true
  optimize_graph_output_memory : Bool := false
deriving DecidableEq, Repr

/-- The value of a default-constructed StaticModuleOptions. -/
def defaultStaticModuleOptions : StaticModuleOptions := {}

/-- VALUE_KIND: VALUE nodes defined by prim::Constant (impl.h line 91). -/
def CONSTANT_VALUE : Int := -2

/-- VALUE_KIND: VALUE nodes representing graph inputs (impl.h line 92). -/
def INPUT_VALUE : Int := -1

/-- DefInfo = std::pair of kind and index (impl.h line 105). -/
abbrev DefInfo := Int × Int

/-- A named parameter schema, as carried by a TorchScript module.  Only the
argument names matter to the model. -/
structure FunctionSchema where
  argNames : List String
deriving DecidableEq, Repr

/-- A TorchScript module: an object-bound graph together with its named
parameter schema. -/
structure Module where
  graph : Graph
  schema : FunctionSchema
deriving DecidableEq, Repr

def GNode.isConstant (n : GNode) : Bool :=
  match n.op with
  | OpKind.constant _ => true
  | _ => false

/-- The payload of a prim::Constant node, none for any other node. -/
def GNode.constPayload (n : GNode) : Option IValue :=
  match n.op with
  | OpKind.constant v => some v
  | _ => none

/-- Enumerate a list with indices starting at `i`. -/
def enumIdxFrom : Nat → List α → List (Nat × α)
  | _, [] => []
  | i, a :: as => (i, a) :: enumIdxFrom (i + 1) as

/-- Enumerate a list with indices starting at 0. -/
def enumIdx (l : List α) : List (Nat × α) := enumIdxFrom 0 l

/-- Option-valued map over a list, succeeding only if every element maps
successfully (structurally recursive, unlike List.mapM). -/
def mapOpt (f : α → Option β) : List α → Option (List β)
  | [] => some []
  | a :: as =>
    match f a, mapOpt f as with
    | some b, some bs => some (b :: bs)
    | _, _ => none

/-- State threaded through compilation: the constant table built so far, the
ProcessedNode list built so far, and the accumulated value-to-DefInfo table. -/
structure CompileState where
  constants : List IValue
  pnodes : List GNode
  defs : List (ValueId × DefInfo)
deriving DecidableEq, Repr

/-- Modelled from the spec: one step of the Compiled Plan compiler (the body
of StaticModule's constructor lives in the missing impl.cpp).  A
prim::Constant node is extracted into the constant table and its output
mapped to (CONSTANT_VALUE, table index); any other node is appended to the
instruction list and its outputs mapped to (node ordinal, output index). -/
def processNode (st : CompileState) (n : GNode) : CompileState :=
  match n.constPayload with
  | some v =>
    { st with
      constants := st.constants ++ [v]
      defs := st.defs ++ n.outputs.map (fun o => (o, (CONSTANT_VALUE, (st.constants.length : Int)))) }
  | none =>
    { st with
      pnodes := st.pnodes ++ [n]
      defs := st.defs ++ (enumIdx n.outputs).map
        (fun p => (p.2, ((st.pnodes.length : Int), (p.1 : Int)))) }

/-- Fold `processNode` over the graph's nodes in topological order. -/
def processNodes (st : CompileState) : List GNode → CompileState
  | [] => st
  | n :: ns => processNodes (processNode st n) ns

/-- Initial compile state: graph input number i is mapped to
(INPUT_VALUE, i). -/
def initState (g : Graph) : CompileState :=
  { constants := []
    pnodes := []
    defs := (enumIdx g.inputs).map (fun p => (p.2, (INPUT_VALUE, (p.1 : Int)))) }

/-- Look a value id up in the accumulated SSA definition table. -/
def lookupDef (defs : List (ValueId × DefInfo)) (v : ValueId) : Option DefInfo :=
  (defs.find? (fun p => p.1 == v)).map Prod.snd

/-- Output value ids of the graph's prim::Constant nodes. -/
def constantOutputs (g : Graph) : List ValueId :=
  (g.nodes.filter (fun n => n.isConstant)).flatMap (fun n => n.outputs)

/-- The may-alias edges a node declares, as pairs of value ids. -/
def GNode.aliasEdges (n : GNode) : List (ValueId × ValueId) :=
  n.aliasPairs.filterMap (fun p =>
    match n.outputs.get? p.1, n.inputs.get? p.2 with
    | some o, some i => some (o, i)
    | _, _ => none)

/-- All may-alias edges of a graph. -/
def Graph.aliasEdges (g : Graph) : List (ValueId × ValueId) :=
  g.nodes.flatMap GNode.aliasEdges

/-- Two value ids may alias when the graph declares an alias edge between
them in either direction. -/
def mayAlias (g : Graph) (a b : ValueId) : Prop :=
  (a, b) ∈ g.aliasEdges ∨ (b, a) ∈ g.aliasEdges

/-- The seed of the external value set: graph inputs, graph outputs, and
constants. -/
def externalBase (g : Graph) : List ValueId :=
  g.inputs ++ g.outputs ++ constantOutputs g

/-- Grow a value set by every value alias-adjacent to it. -/
def aliasStep (edges : List (ValueId × ValueId)) (s : List ValueId) : List ValueId :=
  s ++ edges.filterMap (fun e =>
    if e.2 ∈ s then some e.1 else if e.1 ∈ s then some e.2 else none)

/-- Iterate `aliasStep` a fixed number of times. -/
def aliasClosure (edges : List (ValueId × ValueId)) : Nat → List ValueId → List ValueId
  | 0, s => s
  | Nat.succ k, s => aliasClosure edges k (aliasStep edges s)

/-- Modelled from the spec: the external value set computed by the compiler
(step 4 of the Compiled Plan algorithm; the computation lives in the missing
impl.cpp).  Graph inputs, outputs, constants, and transitively anything that
may alias one of these. -/
def externalValues (g : Graph) : List ValueId :=
  aliasClosure g.aliasEdges (g.nodes.length + 1) (externalBase g)

/-- Compile-time failure: the graph contains a construct the compiler cannot
lower (here: an instruction input with no recorded definition). -/
inductive CompileError where
  | graphUnsupported : CompileError
deriving DecidableEq, Repr

/-- The compiled StaticModule of impl.h lines 80-188: options, graph,
optional schema, constant table, ProcessedNode list, output SSA defs, the
per-node input SSA def map, and the external value set. -/
structure StaticModule where
  opts_ : StaticModuleOptions
  graph_ : Graph
  schema_ : Option FunctionSchema
  first_input_is_self_ : Bool
  constants_ : List IValue
  nodes_ : List GNode
  output_ssa_defs_ : List DefInfo
  node_inputs_ssa_def_map_ : List (List DefInfo)
  external_values_ : List ValueId
deriving DecidableEq, Repr

/-- The compile state after all of the graph's nodes have been processed. -/
def compState (g : Graph) : CompileState :=
  processNodes (initState g) g.nodes

/-- Modelled from the spec: the StaticModule constructor (missing impl.cpp).
Walks the nodes in topological order, extracts constants, resolves every
instruction input and every graph output to a DefInfo, computes the external
value set, and fails with graphUnsupported when a value cannot be resolved. -/
def compileWithSchema (g : Graph) (sch : Option FunctionSchema) (selfFlag : Bool)
    (o : StaticModuleOptions) : Except CompileError StaticModule :=
  match mapOpt (fun n => mapOpt (lookupDef (compState g).defs) n.inputs) (compState g).pnodes,
        mapOpt (lookupDef (compState g).defs) g.outputs with
  | some inMap, some outDefs =>
    Except.ok
      { opts_ := o
        graph_ := g
        schema_ := sch
        first_input_is_self_ := selfFlag
        constants_ := (compState g).constants
        nodes_ := (compState g).pnodes
        output_ssa_defs_ := outDefs
        node_inputs_ssa_def_map_ := inMap
        external_values_ := externalValues g }
  | _, _ => Except.error CompileError.graphUnsupported

/-- Compile from a bare graph: no schema (impl.h lines 82-84). -/
def compile (g : Graph) (o : StaticModuleOptions) : Except CompileError StaticModule :=
  compileWithSchema g none false o

/-- Compile from a TorchScript module: the schema is recorded (impl.h lines
86-88). -/
def compileFromModule (m : Module) (o : StaticModuleOptions) : Except CompileError StaticModule :=
  compileWithSchema m.graph (some m.schema) true o

/-- All output value ids of the compiled instruction list. -/
def nonConstNodeOutputs (sm : StaticModule) : List ValueId :=
  sm.nodes_.flatMap (fun n => n.outputs)

/-- Whether storage for graph output values is planned at all: the header
comment on optimize_graph_output_memory (impl.h lines 28-31) requires
enable_out_variant to be true. -/
def output_memory_planning_enabled (o : StaticModuleOptions) : Bool :=
  o.enable_out_variant && o.optimize_graph_output_memory

/-- Modelled from the spec: the MemoryPlanner (jit/runtime/memory_planner.h
is not under src/).  `managed_values` is the reusable pool: storage for
non-escaping instruction outputs, batch allocated and recycled across calls;
`managed_output_values` is planned output storage that is never reclaimed by
the planner. -/
structure MemoryPlanner where
  managed_values : List ValueId
  managed_output_values : List ValueId
deriving DecidableEq, Repr

/-- Modelled from the spec: planner construction.  Only values outside the
external value set may enter the reusable pool, and only when out variants
are enabled; output storage is planned only under
optimize_graph_output_memory. -/
def mkMemoryPlanner (sm : StaticModule) : MemoryPlanner :=
  { managed_values :=
      if sm.opts_.enable_out_variant then
        (nonConstNodeOutputs sm).filter (fun v => ! sm.external_values_.contains v)
      else []
    managed_output_values :=
      if output_memory_planning_enabled sm.opts_ then sm.graph_.outputs else [] }

/-- The mutable per-call state of a StaticRuntime (impl.h lines 285-289):
its planner, input slots, output slots, and its instance of the per-node
output values (the activations). -/
structure StaticRuntime where
  planner_ : Option MemoryPlanner
  inputs_ : List IValue
  outputs_ : List IValue
  node_outputs_ : List (List IValue)
deriving DecidableEq, Repr

/-- Modelled from the spec: StaticRuntime construction (missing impl.cpp).
Memory planning is only enabled if sm.opts().cleanup_activations is true
(impl.h lines 282-284); otherwise no planner is created. -/
def mkStaticRuntime (sm : StaticModule) : StaticRuntime :=
  { planner_ := if sm.opts_.cleanup_activations then some (mkMemoryPlanner sm) else none
    inputs_ := List.replicate sm.graph_.inputs.length IValue.empty
    outputs_ := []
    node_outputs_ := [] }

/-- Kernel semantics for the model's operation catalog. -/
def evalOp : OpKind → List IValue → List IValue
  | OpKind.constant v, _ => [v]
  | OpKind.add, [IValue.int a, IValue.int b] => [IValue.int (a + b)]
  | OpKind.add, [IValue.tensor a, IValue.tensor b] =>
    [IValue.tensor (List.zipWith (fun x y => x + y) a b)]
  | OpKind.mul, [IValue.int a, IValue.int b] => [IValue.int (a * b)]
  | OpKind.relu, [IValue.int a] => [IValue.int (max a 0)]
  | OpKind.relu, [IValue.tensor a] => [IValue.tensor (a.map (fun x => max x 0))]
  | OpKind.ident, [v] => [v]
  | _, _ => [IValue.empty]

/-- Resolve a DefInfo to a value, following the rule documented at impl.h
lines 101-104: kind CONSTANT_VALUE reads constants_[idx], kind INPUT_VALUE
reads inputs_[idx], any other kind reads output idx of node number kind. -/
def resolveDef (sm : StaticModule) (inputs : List IValue) (acc : List (List IValue))
    (d : DefInfo) : Option IValue :=
  if d.1 = CONSTANT_VALUE then sm.constants_.get? d.2.toNat
  else if d.1 = INPUT_VALUE then inputs.get? d.2.toNat
  else (acc.get? d.1.toNat).bind (fun outs => outs.get? d.2.toNat)

/-- A compile-time storage location: a constant-table slot, an input slot,
or an output slot of an instruction. -/
inductive StorageLoc where
  | constantSlot : Nat → StorageLoc
  | inputSlot : Nat → StorageLoc
  | nodeOutput : Nat → Nat → StorageLoc
deriving DecidableEq, Repr

/-- Resolve a DefInfo to its storage location under the rule of impl.h lines
101-104, checking the index against the compiled tables. -/
def resolveLoc (sm : StaticModule) (d : DefInfo) : Option StorageLoc :=
  if d.1 = CONSTANT_VALUE then
    if d.2.toNat < sm.constants_.length then some (StorageLoc.constantSlot d.2.toNat) else none
  else if d.1 = INPUT_VALUE then
    if d.2.toNat < sm.graph_.inputs.length then some (StorageLoc.inputSlot d.2.toNat) else none
  else if 0 ≤ d.1 then
    match sm.nodes_.get? d.1.toNat with
    | some n => if d.2.toNat < n.outputs.length then
        some (StorageLoc.nodeOutput d.1.toNat d.2.toNat) else none
    | none => none
  else none

/-- Every DefInfo stored in the compiled index map or output indices. -/
def indexMapDefs (sm : StaticModule) : List DefInfo :=
  sm.node_inputs_ssa_def_map_.flatMap id ++ sm.output_ssa_defs_

/-- Modelled from the spec: the execution engine's node loop (missing
impl.cpp).  Runs the instruction list in program order; each instruction
resolves its recorded input DefInfos against the constant table, the input
slots and the outputs already produced, then applies its kernel. -/
def execNodes (sm : StaticModule) (inputs : List IValue) :
    List GNode → List (List DefInfo) → List (List IValue) → Option (List (List IValue))
  | [], _, acc => some acc
  | n :: ns, ds :: dss, acc =>
    match mapOpt (resolveDef sm inputs acc) ds with
    | some ivs => execNodes sm inputs ns dss (acc ++ [evalOp n.op ivs])
    | none => none
  | _ :: _, [], _ => none

/-- Modelled from the spec: one full plan execution, producing all node
outputs and the graph outputs resolved through output_ssa_defs_. -/
def runPlan (sm : StaticModule) (inputs : List IValue) :
    Option (List (List IValue) × List IValue) :=
  match execNodes sm inputs sm.nodes_ sm.node_inputs_ssa_def_map_ [] with
  | some acc =>
    match mapOpt (resolveDef sm inputs acc) sm.output_ssa_defs_ with
    | some outs => some (acc, outs)
    | none => none
  | none => none

/-- clean_up_input_ivalues, from impl.h lines 276-280: every input slot is
assigned a default-constructed (empty) IValue. -/
def clean_up_input_ivalues (inputs : List IValue) : List IValue :=
  inputs.map (fun _ => IValue.empty)

/-- Modelled from the spec: set_inputs (declared at impl.h lines 271-273 as
the helper for copying input args into inputs_).  The runtime's input slot
array is replaced by the argument values. -/
def set_inputs (rt : StaticRuntime) (args : List IValue) : StaticRuntime :=
  { rt with inputs_ := args }

/-- Modelled from the spec: one call of StaticRuntime's run operator
(missing impl.cpp).  Binds the inputs by value, executes the plan, records
the outputs, resets the input slots with clean_up_input_ivalues immediately
after use, and either releases the activations (cleanup_activations) or
caches them inside the runtime. -/
def StaticRuntime.run (sm : StaticModule) (rt : StaticRuntime) (args : List IValue) :
    Option (StaticRuntime × List IValue) :=
  let rt1 := set_inputs rt args
  match runPlan sm rt1.inputs_ with
  | some (acc, outs) =>
    some
      ({ rt1 with
          inputs_ := clean_up_input_ivalues rt1.inputs_
          outputs_ := outs
          node_outputs_ := if sm.opts_.cleanup_activations then [] else acc },
        outs)
  | none => none

/-- Result of an accessor guarded by DCHECK: either the value, or a fatal
invariant-violation abort. -/
inductive AccessResult (α : Type) where
  | ok : α → AccessResult α
  | fatalAbort : AccessResult α
deriving DecidableEq, Repr

/-- Modelled from the spec: the DCHECK invariant check used by Input and
Output (its macro definition is not under src/).  An invariant violation
fails fast rather than producing a recoverable value. -/
def DCHECK (cond : Bool) (k : Unit → AccessResult α) : AccessResult α :=
  if cond then k () else AccessResult.fatalAbort

/-- StaticRuntime::Input (impl.h lines 240-243): DCHECK(i < inputs_.size())
then return inputs_[i]. -/
def StaticRuntime.Input (rt : StaticRuntime) (i : Nat) : AccessResult IValue :=
  DCHECK (decide (i < rt.inputs_.length))
    (fun _ => AccessResult.ok (rt.inputs_.getD i IValue.empty))

/-- StaticRuntime::Output (impl.h lines 246-249): DCHECK(i < outputs_.size())
then return *outputs_[i]. -/
def StaticRuntime.Output (rt : StaticRuntime) (i : Nat) : AccessResult IValue :=
  DCHECK (decide (i < rt.outputs_.length))
    (fun _ => AccessResult.ok (rt.outputs_.getD i IValue.empty))

/-- A run-time call error for the kwargs interface. -/
inductive RunError where
  | noSchema : RunError
  | executionFailed : RunError
deriving DecidableEq, Repr

/-- Modelled from the spec: the args/kwargs run operator (impl.h lines
112-114 with the comment at 110-111: this interface only works if the
StaticModule was initialized with a TorchScript module).  Without a schema
the call is invalid; with one, kwargs are bound by schema argument name
after the positional args. -/
def runWithKwargs (sm : StaticModule) (rt : StaticRuntime) (args : List IValue)
    (kwargs : List (String × IValue)) : Except RunError (StaticRuntime × List IValue) :=
  match sm.schema_ with
  | none => Except.error RunError.noSchema
  | some sch =>
    let kwvals := (sch.argNames.drop args.length).map
      (fun nm => ((kwargs.find? (fun p => p.1 == nm)).map Prod.snd).getD IValue.empty)
    match StaticRuntime.run sm rt (args ++ kwvals) with
    | some r => Except.ok r
    | none => Except.error RunError.executionFailed

/-- A caller's world: the buffers the caller owns, alongside the runtime it
calls into. -/
structure CallerWorld where
  caller_buf : List IValue
  rt : StaticRuntime
deriving DecidableEq, Repr

/-- The caller passes its current buffer contents to set_inputs. -/
def caller_pass_inputs (w : CallerWorld) : CallerWorld :=
  { w with rt := set_inputs w.rt w.caller_buf }

/-- The caller mutates one of its own buffers after the call returned. -/
def caller_mutate (w : CallerWorld) (i : Nat) (v : IValue) : CallerWorld :=
  { w with caller_buf := w.caller_buf.set i v }

/-- Two StaticRuntime instances derived from one StaticModule: the module is
shared read-only, each runtime owns its mutable state. -/
structure World where
  sm : StaticModule
  rtA : StaticRuntime
  rtB : StaticRuntime
deriving DecidableEq, Repr

/-- Run a call on runtime A only. -/
def runOnA (w : World) (args : List IValue) : Option (World × List IValue) :=
  match StaticRuntime.run w.sm w.rtA args with
  | some (rt2, outs) => some ({ w with rtA := rt2 }, outs)
  | none => none

/-- Run a call on runtime B only. -/
def runOnB (w : World) (args : List IValue) : Option (World × List IValue) :=
  match StaticRuntime.run w.sm w.rtB args with
  | some (rt2, outs) => some ({ w with rtB := rt2 }, outs)
  | none => none

/-- Example graph: value 0 is the graph input, node 0 is prim::Constant
producing 3 into value 1, node 1 adds values 0 and 1 into value 2, and
value 2 is the graph output. -/
def exGraph : Graph :=
  { inputs := [0]
    nodes :=
      [ { op := OpKind.constant (IValue.int 3), inputs := [], outputs := [1], aliasPairs := [] }
      , { op := OpKind.add, inputs := [0, 1], outputs := [2], aliasPairs := [] } ]
    outputs := [2] }

/-- A placeholder StaticModule used only to make `exSM` total. -/
def emptySM : StaticModule :=
  { opts_ := defaultStaticModuleOptions
    graph_ := { inputs := [], nodes := [], outputs := [] }
    schema_ := none
    first_input_is_self_ := false
    constants_ := []
    nodes_ := []
    output_ssa_defs_ := []
    node_inputs_ssa_def_map_ := []
    external_values_ := [] }

/-- The example graph compiled with default options. -/
def exSM : StaticModule :=
  match compile exGraph defaultStaticModuleOptions with
  | Except.ok sm => sm
  | Except.error _ => emptySM

/-- A runtime for the example module. -/
def exRT : StaticRuntime := mkStaticRuntime exSM

/-- A two-runtime world over the example module. -/
def exWorld : World := { sm := exSM, rtA := exRT, rtB := exRT }

/-- Example module with a schema, compiled from a TorchScript module. -/
def exModule : Module :=
  { graph := exGraph, schema := { argNames := ["x"] } }

/-- The example TorchScript module compiled with default options. -/
def exSMM : StaticModule :=
  match compileFromModule exModule defaultStaticModuleOptions with
  | Except.ok sm => sm
  | Except.error _ => emptySM

/-- Well-formedness of a DefInfo relative to a compile state: it points into
the constant table, the graph's input slots, or the outputs of an existing
instruction, with an in-range index. -/
def DefInfoOk (inLen : Nat) (st : CompileState) (d : DefInfo) : Prop :=
  (d.1 = CONSTANT_VALUE ∧ 0 ≤ d.2 ∧ d.2.toNat < st.constants.length)
  ∨ (d.1 = INPUT_VALUE ∧ 0 ≤ d.2 ∧ d.2.toNat < inLen)
  ∨ (0 ≤ d.1 ∧ 0 ≤ d.2 ∧ ∃ h : d.1.toNat < st.pnodes.length,
      d.2.toNat < (st.pnodes.get ⟨d.1.toNat, h⟩).outputs.length)

/-- Every DefInfo recorded in a compile state's table is well formed. -/
def StateOk (inLen : Nat) (st : CompileState) : Prop :=
  ∀ p ∈ st.defs, DefInfoOk inLen st p.2

/-- Concrete arguments for the example module. -/
def exArgs : List IValue := [IValue.int 4]

/-- The result of one call on the example runtime. -/
def exRunResult : Option (StaticRuntime × List IValue) :=
  StaticRuntime.run exSM exRT exArgs

/-- The example runtime's state after the call. -/
def exRTafter : StaticRuntime := (exRunResult.map Prod.fst).getD exRT

/-- The outputs of the call on the example runtime. -/
def exOuts : List IValue := (exRunResult.map Prod.snd).getD []

/-- The two-runtime world after a call on runtime A. -/
def exWorldA : World := ((runOnA exWorld exArgs).map Prod.fst).getD exWorld

/-- The two-runtime world after a call on runtime B. -/
def exWorldB : World := ((runOnB exWorld exArgs).map Prod.fst).getD exWorld

/-- Options with out variants disabled. -/
def exOptsNoOut : StaticModuleOptions := { enable_out_variant := false }

/-! Helper lemmas. -/

theorem enumIdxFrom_fst_lt {α : Type} (p : Nat × α) :
    ∀ (i : Nat) (l : List α), p ∈ enumIdxFrom i l → p.1 < i + l.length := by
  intro i l
  induction l generalizing i with
  | nil => intro h; cases h
  | cons a as ih =>
    intro h
    cases h with
    | head => simp
    | tail _ h2 =>
      have h3 := ih (i + 1) h2
      simp only [List.length_cons]
      omega

theorem enumIdx_fst_lt {α : Type} (p : Nat × α) (l : List α) (h : p ∈ enumIdx l) :
    p.1 < l.length := by
  have h2 := enumIdxFrom_fst_lt p 0 l h
  omega

theorem mapOpt_mem {α β : Type} {f : α → Option β} :
    ∀ {l : List α} {l₂ : List β}, mapOpt f l = some l₂ → ∀ b ∈ l₂, ∃ a ∈ l, f a = some b := by
  intro l
  induction l with
  | nil =>
    intro l₂ h b hb
    simp only [mapOpt, Option.some.injEq] at h
    subst h
    cases hb
  | cons a as ih =>
    intro l₂ h b hb
    simp only [mapOpt] at h
    cases hfa : f a with
    | none => rw [hfa] at h; simp at h
    | some b₀ =>
      rw [hfa] at h
      cases hrest : mapOpt f as with
      | none => rw [hrest] at h; simp at h
      | some bs =>
        rw [hrest] at h
        simp only [Option.some.injEq] at h
        subst h
        cases hb with
        | head => exact ⟨a, List.mem_cons_self a as, hfa⟩
        | tail _ hb2 =>
          obtain ⟨a₂, ha₂, hfa₂⟩ := ih hrest b hb2
          exact ⟨a₂, List.mem_cons_of_mem a ha₂, hfa₂⟩

theorem lookupDef_mem {defs : List (ValueId × DefInfo)} {v : ValueId} {d : DefInfo}
    (h : lookupDef defs v = some d) : (v, d) ∈ defs := by
  unfold lookupDef at h
  cases hf : defs.find? (fun p => p.1 == v) with
  | none => rw [hf] at h; cases h
  | some p =>
    obtain ⟨p1, p2⟩ := p
    rw [hf] at h
    simp only [Option.map_some', Option.some.injEq] at h
    have hmem := List.mem_of_find?_eq_some hf
    have hpred := List.find?_some hf
    have hp1 : p1 = v := by simpa using hpred
    subst hp1
    subst h
    exact hmem

theorem mem_aliasStep_of_mem {edges : List (ValueId × ValueId)} {s : List ValueId}
    {v : ValueId} (h : v ∈ s) : v ∈ aliasStep edges s :=
  List.mem_append_left _ h

theorem mem_aliasStep_left {edges : List (ValueId × ValueId)} {s : List ValueId}
    {a b : ValueId} (he : (a, b) ∈ edges) (hb : b ∈ s) : a ∈ aliasStep edges s := by
  unfold aliasStep
  apply List.mem_append_right
  apply List.mem_filterMap.mpr
  exact ⟨(a, b), he, by simp [hb]⟩

theorem mem_aliasStep_right {edges : List (ValueId × ValueId)} {s : List ValueId}
    {a b : ValueId} (he : (a, b) ∈ edges) (ha : a ∈ s) : b ∈ aliasStep edges s := by
  by_cases hb : b ∈ s
  · exact mem_aliasStep_of_mem hb
  · unfold aliasStep
    apply List.mem_append_right
    apply List.mem_filterMap.mpr
    exact ⟨(a, b), he, by simp [hb, ha]⟩

theorem mem_aliasClosure_of_mem {edges : List (ValueId × ValueId)} {v : ValueId} :
    ∀ (k : Nat) {s : List ValueId}, v ∈ s → v ∈ aliasClosure edges k s := by
  intro k
  induction k with
  | zero => intro s h; exact h
  | succ k ih => intro s h; exact ih (mem_aliasStep_of_mem h)

theorem mem_externalBase_of_cases {g : Graph} {v : ValueId}
    (hv : v ∈ g.inputs ∨ v ∈ g.outputs ∨ v ∈ constantOutputs g) : v ∈ externalBase g := by
  unfold externalBase
  rcases hv with h | h | h
  · exact List.mem_append_left _ (List.mem_append_left _ h)
  · exact List.mem_append_left _ (List.mem_append_right _ h)
  · exact List.mem_append_right _ h

theorem mem_externalValues_base {g : Graph} {v : ValueId} (h : v ∈ externalBase g) :
    v ∈ externalValues g :=
  mem_aliasClosure_of_mem g.nodes.length (mem_aliasStep_of_mem h)

theorem mem_externalValues_alias {g : Graph} {v u : ValueId} (hal : mayAlias g v u)
    (hu : u ∈ externalBase g) : v ∈ externalValues g := by
  cases hal with
  | inl he => exact mem_aliasClosure_of_mem g.nodes.length (mem_aliasStep_left he hu)
  | inr he => exact mem_aliasClosure_of_mem g.nodes.length (mem_aliasStep_right he hu)

theorem compileWithSchema_ok_fields {g : Graph} {sch : Option FunctionSchema} {sf : Bool}
    {o : StaticModuleOptions} {sm : StaticModule}
    (hc : compileWithSchema g sch sf o = Except.ok sm) :
    sm.opts_ = o ∧ sm.graph_ = g ∧ sm.schema_ = sch ∧
    sm.external_values_ = externalValues g ∧
    sm.constants_ = (compState g).constants ∧
    sm.nodes_ = (compState g).pnodes ∧
    mapOpt (fun n => mapOpt (lookupDef (compState g).defs) n.inputs)
      (compState g).pnodes = some sm.node_inputs_ssa_def_map_ ∧
    mapOpt (lookupDef (compState g).defs) g.outputs
      = some sm.output_ssa_defs_ := by
  unfold compileWithSchema at hc
  cases h1 : mapOpt (fun n => mapOpt (lookupDef (compState g).defs)
      n.inputs) (compState g).pnodes with
  | none => rw [h1] at hc; simp at hc
  | some inMap =>
    cases h2 : mapOpt (lookupDef (compState g).defs) g.outputs with
    | none => rw [h1, h2] at hc; simp at hc
    | some outDefs =>
      rw [h1, h2] at hc
      simp only [Except.ok.injEq] at hc
      subst hc
      exact ⟨rfl, rfl, rfl, rfl, rfl, rfl, rfl, rfl⟩

theorem run_preserves_planner {sm : StaticModule} {rt rt₂ : StaticRuntime}
    {args outs : List IValue} (h : StaticRuntime.run sm rt args = some (rt₂, outs)) :
    rt₂.planner_ = rt.planner_ := by
  simp only [StaticRuntime.run, set_inputs] at h
  cases hp : runPlan sm args with
  | none => rw [hp] at h; cases h
  | some p =>
    obtain ⟨acc, os⟩ := p
    rw [hp] at h
    simp only [Option.some.injEq, Prod.mk.injEq] at h
    obtain ⟨hrt, -⟩ := h
    subst hrt
    rfl

/-- C1: for every compiled StaticModule, every graph input, graph output,
constant, and any value that may alias one of these is a member of the
external value set, and the Memory Planner never assigns such a value
storage from its reusable pool, for every StaticRuntime derived from the
module (whose planner, fixed at construction, is preserved by every run). -/
theorem C1_external_values_never_pooled
    (g : Graph) (o : StaticModuleOptions) (sm : StaticModule)
    (hc : compile g o = Except.ok sm) (v : ValueId)
    (hv : v ∈ g.inputs ∨ v ∈ g.outputs ∨ v ∈ constantOutputs g ∨
      ∃ u, mayAlias g v u ∧ (u ∈ g.inputs ∨ u ∈ g.outputs ∨ u ∈ constantOutputs g)) :
    v ∈ sm.external_values_ ∧
    (∀ p, (mkStaticRuntime sm).planner_ = some p → v ∉ p.managed_values) ∧
    (∀ rt args rt₂ outs, StaticRuntime.run sm rt args = some (rt₂, outs) →
      rt₂.planner_ = rt.planner_) := by
  obtain ⟨-, -, -, hext, -, -, -, -⟩ := compileWithSchema_ok_fields hc
  have hvext : v ∈ sm.external_values_ := by
    rw [hext]
    rcases hv with h | h | h | ⟨u, hal, hu⟩
    · exact mem_externalValues_base (mem_externalBase_of_cases (Or.inl h))
    · exact mem_externalValues_base (mem_externalBase_of_cases (Or.inr (Or.inl h)))
    · exact mem_externalValues_base (mem_externalBase_of_cases (Or.inr (Or.inr h)))
    · exact mem_externalValues_alias hal (mem_externalBase_of_cases hu)
  refine ⟨hvext, ?_, ?_⟩
  · intro p hp hmem
    unfold mkStaticRuntime at hp
    by_cases hclean : sm.opts_.cleanup_activations
    · rw [if_pos hclean] at hp
      simp only [Option.some.injEq] at hp
      subst hp
      unfold mkMemoryPlanner at hmem
      by_cases hout : sm.opts_.enable_out_variant
      · rw [if_pos hout] at hmem
        have h2 := (List.mem_filter.mp hmem).2
        simp only [Bool.not_eq_true'] at h2
        have h3 : v ∉ sm.external_values_ := by
          intro hcontra
          simp [List.contains_iff_exists_mem_beq] at h2
          exact h2 hcontra
        exact h3 hvext
      · rw [if_neg hout] at hmem
        cases hmem
    · rw [if_neg hclean] at hp
      cases hp
  · intro rt args rt₂ outs h
    exact run_preserves_planner h

/-- Witness for C1 at the example graph: its input value 0 is external and
never managed by the reusable pool. -/
theorem C1_external_values_never_pooled_witness :
    (0 : ValueId) ∈ exSM.external_values_ ∧
    (∀ p, (mkStaticRuntime exSM).planner_ = some p → (0 : ValueId) ∉ p.managed_values) ∧
    (∀ rt args rt₂ outs, StaticRuntime.run exSM rt args = some (rt₂, outs) →
      rt₂.planner_ = rt.planner_) :=
  C1_external_values_never_pooled exGraph defaultStaticModuleOptions exSM rfl 0
    (Or.inl (by decide))

/-- C3: compilation is a deterministic function of the graph and options:
two compilations of the same graph with the same options produce identical
instruction lists, index maps, output indices, and constant tables. -/
theorem C3_compile_deterministic
    (g₁ g₂ : Graph) (o₁ o₂ : StaticModuleOptions) (hg : g₁ = g₂) (ho : o₁ = o₂)
    (sm₁ sm₂ : StaticModule) (h₁ : compile g₁ o₁ = Except.ok sm₁)
    (h₂ : compile g₂ o₂ = Except.ok sm₂) :
    sm₁.nodes_ = sm₂.nodes_ ∧
    sm₁.node_inputs_ssa_def_map_ = sm₂.node_inputs_ssa_def_map_ ∧
    sm₁.output_ssa_defs_ = sm₂.output_ssa_defs_ ∧
    sm₁.constants_ = sm₂.constants_ := by
  subst hg
  subst ho
  rw [h₁] at h₂
  injection h₂ with h
  subst h
  exact ⟨rfl, rfl, rfl, rfl⟩

/-- Witness for C3: compiling the example graph twice. -/
theorem C3_compile_deterministic_witness :
    exSM.nodes_ = exSM.nodes_ ∧
    exSM.node_inputs_ssa_def_map_ = exSM.node_inputs_ssa_def_map_ ∧
    exSM.output_ssa_defs_ = exSM.output_ssa_defs_ ∧
    exSM.constants_ = exSM.constants_ :=
  C3_compile_deterministic exGraph exGraph defaultStaticModuleOptions
    defaultStaticModuleOptions rfl rfl exSM exSM rfl rfl

/-- C4: set_inputs binds the caller's arguments by value: after binding, a
mutation of the caller's own buffers leaves the runtime's stored input
state, and any subsequent run from that state, unchanged. -/
theorem C4_inputs_bound_by_value
    (w : CallerWorld) (i : Nat) (v : IValue) (sm : StaticModule) (args : List IValue) :
    (caller_mutate (caller_pass_inputs w) i v).rt = (caller_pass_inputs w).rt ∧
    (caller_pass_inputs w).rt.inputs_ = w.caller_buf ∧
    StaticRuntime.run sm (caller_mutate (caller_pass_inputs w) i v).rt args
      = StaticRuntime.run sm (caller_pass_inputs w).rt args :=
  ⟨rfl, rfl, rfl⟩

/-- C5: after a successful run, every element of the input slot array has
been reset to the empty IValue (clean_up_input_ivalues), so no strong
reference to a caller-supplied input survives the call. -/
theorem C5_input_slots_reset
    (sm : StaticModule) (rt : StaticRuntime) (args : List IValue)
    (rt₂ : StaticRuntime) (outs : List IValue)
    (h : StaticRuntime.run sm rt args = some (rt₂, outs)) :
    rt₂.inputs_.length = args.length ∧ ∀ x ∈ rt₂.inputs_, x = IValue.empty := by
  simp only [StaticRuntime.run, set_inputs] at h
  cases hp : runPlan sm args with
  | none => rw [hp] at h; cases h
  | some p =>
    obtain ⟨acc, os⟩ := p
    rw [hp] at h
    simp only [Option.some.injEq, Prod.mk.injEq] at h
    obtain ⟨hrt, -⟩ := h
    subst hrt
    constructor
    · simp [clean_up_input_ivalues]
    · intro x hx
      simp only [clean_up_input_ivalues] at hx
      obtain ⟨a, -, ha⟩ := List.mem_map.mp hx
      exact ha.symm

/-- Witness for C5 at the example run. -/
theorem C5_input_slots_reset_witness :
    exRTafter.inputs_.length = exArgs.length ∧ ∀ x ∈ exRTafter.inputs_, x = IValue.empty :=
  C5_input_slots_reset exSM exRT exArgs exRTafter exOuts (by decide)

/-- C6: Input with an index at or past inputs_.size(), and Output with an
index at or past outputs_.size(), fail fast through the invariant check
rather than returning a recoverable value. -/
theorem C6_out_of_range_fails_fast (rt : StaticRuntime) (i : Nat) :
    (rt.inputs_.length ≤ i → rt.Input i = AccessResult.fatalAbort) ∧
    (rt.outputs_.length ≤ i → rt.Output i = AccessResult.fatalAbort) ∧
    (∀ v : IValue, AccessResult.ok v ≠ (AccessResult.fatalAbort : AccessResult IValue)) := by
  refine ⟨?_, ?_, ?_⟩
  · intro h
    have hlt : ¬ i < rt.inputs_.length := by omega
    simp [StaticRuntime.Input, DCHECK, hlt]
  · intro h
    have hlt : ¬ i < rt.outputs_.length := by omega
    simp [StaticRuntime.Output, DCHECK, hlt]
  · intro v hcontra
    cases hcontra

/-- Witness for C6 at the example runtime with index 5. -/
theorem C6_out_of_range_fails_fast_witness :
    exRT.Input 5 = AccessResult.fatalAbort ∧ exRT.Output 5 = AccessResult.fatalAbort :=
  ⟨(C6_out_of_range_fails_fast exRT 5).1 (by decide),
   (C6_out_of_range_fails_fast exRT 5).2.1 (by decide)⟩

/-- C7: two StaticRuntime instances derived from one StaticModule share only
the immutable module: a run on one leaves the other's state and the module
unchanged, and both produce identical outputs on the same inputs. -/
theorem C7_runtimes_independent
    (w : World) (args : List IValue) (w₁ w₂ : World) (o₁ o₂ : List IValue)
    (hA : runOnA w args = some (w₁, o₁)) (hB : runOnB w args = some (w₂, o₂)) :
    o₁ = o₂ ∧ w₁.rtB = w.rtB ∧ w₁.sm = w.sm ∧ w₂.rtA = w.rtA ∧ w₂.sm = w.sm := by
  simp only [runOnA, StaticRuntime.run, set_inputs] at hA
  simp only [runOnB, StaticRuntime.run, set_inputs] at hB
  cases hp : runPlan w.sm args with
  | none =>
    rw [hp] at hA
    cases hA
  | some p =>
    obtain ⟨acc, os⟩ := p
    rw [hp] at hA
    rw [hp] at hB
    simp only [Option.some.injEq, Prod.mk.injEq] at hA hB
    obtain ⟨hw₁, ho₁⟩ := hA
    obtain ⟨hw₂, ho₂⟩ := hB
    subst hw₁
    subst hw₂
    subst ho₁
    subst ho₂
    exact ⟨rfl, rfl, rfl, rfl, rfl⟩

/-- Witness for C7 at the example world. -/
theorem C7_runtimes_independent_witness :
    exOuts = exOuts ∧ exWorldA.rtB = exWorld.rtB ∧ exWorldA.sm = exWorld.sm ∧
    exWorldB.rtA = exWorld.rtA ∧ exWorldB.sm = exWorld.sm :=
  C7_runtimes_independent exWorld exArgs exWorldA exWorldB exOuts exOuts
    (by decide) (by decide)

/-- C8: a default-constructed StaticModuleOptions has
optimize_graph_output_memory false, and with enable_out_variant false the
flag has no effect: no output-memory planning happens and the planner plans
no output storage. -/
theorem C8_output_memory_default_off :
    defaultStaticModuleOptions.optimize_graph_output_memory = false ∧
    (∀ o : StaticModuleOptions, o.enable_out_variant = false →
      output_memory_planning_enabled o = false) ∧
    (∀ sm : StaticModule, sm.opts_.enable_out_variant = false →
      (mkMemoryPlanner sm).managed_output_values = []) := by
  refine ⟨rfl, ?_, ?_⟩
  · intro o h
    simp [output_memory_planning_enabled, h]
  · intro sm h
    simp [mkMemoryPlanner, output_memory_planning_enabled, h]

/-- Witness for C8 with out variants disabled. -/
theorem C8_output_memory_default_off_witness :
    defaultStaticModuleOptions.optimize_graph_output_memory = false ∧
    output_memory_planning_enabled exOptsNoOut = false :=
  ⟨C8_output_memory_default_off.1, C8_output_memory_default_off.2.1 exOptsNoOut rfl⟩

/-- C9: the args/kwargs run interface is valid only when the StaticModule
was initialized from a TorchScript module (schema_ populated): a module
compiled from a bare graph has no schema and every kwargs call fails with
noSchema, while a module compiled from a TorchScript module has a schema and
a kwargs call never fails with noSchema. -/
theorem C9_kwargs_requires_schema :
    (∀ g o sm, compile g o = Except.ok sm →
      sm.schema_ = none ∧
      ∀ rt args kwargs, runWithKwargs sm rt args kwargs = Except.error RunError.noSchema) ∧
    (∀ m o sm, compileFromModule m o = Except.ok sm →
      sm.schema_ = some m.schema ∧
      ∀ rt args kwargs, runWithKwargs sm rt args kwargs ≠ Except.error RunError.noSchema) := by
  constructor
  · intro g o sm hc
    obtain ⟨-, -, hsch, -, -, -, -, -⟩ := compileWithSchema_ok_fields hc
    refine ⟨hsch, ?_⟩
    intro rt args kwargs
    simp [runWithKwargs, hsch]
  · intro m o sm hc
    obtain ⟨-, -, hsch, -, -, -, -, -⟩ := compileWithSchema_ok_fields hc
    refine ⟨hsch, ?_⟩
    intro rt args kwargs hcontra
    simp only [runWithKwargs, hsch] at hcontra
    split at hcontra
    · cases hcontra
    · simp at hcontra

/-- Witness for C9 at the example modules. -/
theorem C9_kwargs_requires_schema_witness :
    (exSM.schema_ = none ∧
      runWithKwargs exSM exRT exArgs [] = Except.error RunError.noSchema) ∧
    (exSMM.schema_ = some exModule.schema ∧
      runWithKwargs exSMM (mkStaticRuntime exSMM) exArgs [] ≠
        Except.error RunError.noSchema) :=
  ⟨⟨(C9_kwargs_requires_schema.1 exGraph defaultStaticModuleOptions exSM rfl).1,
    (C9_kwargs_requires_schema.1 exGraph defaultStaticModuleOptions exSM rfl).2 exRT exArgs []⟩,
   ⟨(C9_kwargs_requires_schema.2 exModule defaultStaticModuleOptions exSMM rfl).1,
    (C9_kwargs_requires_schema.2 exModule defaultStaticModuleOptions exSMM rfl).2
      (mkStaticRuntime exSMM) exArgs []⟩⟩

/-- C10: a runtime's MemoryPlanner exists if and only if the module's
cleanup_activations option is true; the planner is never created or dropped
by a run, and with cleanup_activations false the activations computed by a
run are cached inside the runtime instead of being released. -/
theorem C10_planner_iff_cleanup (sm : StaticModule) :
    ((mkStaticRuntime sm).planner_.isSome = sm.opts_.cleanup_activations) ∧
    (∀ rt args rt₂ outs, StaticRuntime.run sm rt args = some (rt₂, outs) →
      rt₂.planner_ = rt.planner_ ∧
      (sm.opts_.cleanup_activations = false →
        ∃ acc, runPlan sm args = some (acc, outs) ∧ rt₂.node_outputs_ = acc) ∧
      (sm.opts_.cleanup_activations = true → rt₂.node_outputs_ = [])) := by
  constructor
  · unfold mkStaticRuntime
    by_cases h : sm.opts_.cleanup_activations <;> simp [h]
  · intro rt args rt₂ outs h
    have hplan := run_preserves_planner h
    simp only [StaticRuntime.run, set_inputs] at h
    cases hp : runPlan sm args with
    | none =>
      rw [hp] at h
      cases h
    | some p =>
      obtain ⟨acc, os⟩ := p
      rw [hp] at h
      simp only [Option.some.injEq, Prod.mk.injEq] at h
      obtain ⟨hrt, houts⟩ := h
      subst houts
      subst hrt
      refine ⟨hplan, ?_, ?_⟩
      · intro hf
        exact ⟨acc, rfl, by simp [hf]⟩
      · intro ht
        simp [ht]

/-- Witness for C10 at the example module and run. -/
theorem C10_planner_iff_cleanup_witness :
    (mkStaticRuntime exSM).planner_.isSome = exSM.opts_.cleanup_activations ∧
    exRTafter.planner_ = exRT.planner_ ∧ exRTafter.node_outputs_ = [] :=
  ⟨(C10_planner_iff_cleanup exSM).1,
   ((C10_planner_iff_cleanup exSM).2 exRT exArgs exRTafter exOuts (by decide)).1,
   ((C10_planner_iff_cleanup exSM).2 exRT exArgs exRTafter exOuts (by decide)).2.2 rfl⟩

theorem get_append_left_eq {α : Type} (l l₂ : List α) (i : Nat)
    (h : i < l.length) (h₂ : i < (l ++ l₂).length) :
    (l ++ l₂).get ⟨i, h₂⟩ = l.get ⟨i, h⟩ := by
  simp [List.get_eq_getElem, List.getElem_append_left h]

theorem DefInfoOk_mono {inLen : Nat} {st st₂ : CompileState} {d : DefInfo}
    (hc : st.constants.length ≤ st₂.constants.length)
    (hp : ∀ (i : Nat) (h : i < st.pnodes.length), ∃ h₂ : i < st₂.pnodes.length,
      st₂.pnodes.get ⟨i, h₂⟩ = st.pnodes.get ⟨i, h⟩)
    (h : DefInfoOk inLen st d) : DefInfoOk inLen st₂ d := by
  rcases h with ⟨h1, h2, h3⟩ | ⟨h1, h2, h3⟩ | ⟨h1, h2, h3⟩
  · exact Or.inl ⟨h1, h2, lt_of_lt_of_le h3 hc⟩
  · exact Or.inr (Or.inl ⟨h1, h2, h3⟩)
  · obtain ⟨hlt, hj⟩ := h3
    obtain ⟨h₂, heq⟩ := hp d.1.toNat hlt
    refine Or.inr (Or.inr ⟨h1, h2, h₂, ?_⟩)
    rw [heq]
    exact hj

theorem StateOk_processNode {inLen : Nat} {st : CompileState} {n : GNode}
    (h : StateOk inLen st) : StateOk inLen (processNode st n) := by
  cases hcp : n.constPayload with
  | some v =>
    intro p hp
    simp only [processNode, hcp] at hp ⊢
    rcases List.mem_append.mp hp with hold | hnew
    · refine DefInfoOk_mono ?_ ?_ (h p hold)
      · show st.constants.length ≤ (st.constants ++ [v]).length
        simp only [List.length_append, List.length_singleton]
        omega
      · intro i hi
        exact ⟨hi, rfl⟩
    · obtain ⟨o, ho, heq⟩ := List.mem_map.mp hnew
      subst heq
      simp only [DefInfoOk]
      refine Or.inl ⟨by trivial, Int.natCast_nonneg _, ?_⟩
      show st.constants.length < (st.constants ++ [v]).length
      simp only [List.length_append, List.length_singleton]
      omega
  | none =>
    intro p hp
    simp only [processNode, hcp] at hp ⊢
    rcases List.mem_append.mp hp with hold | hnew
    · refine DefInfoOk_mono ?_ ?_ (h p hold)
      · exact Nat.le_refl _
      · intro i hi
        have hi₂ : i < (st.pnodes ++ [n]).length := by
          simp only [List.length_append, List.length_singleton]
          omega
        exact ⟨hi₂, get_append_left_eq st.pnodes [n] i hi hi₂⟩
    · obtain ⟨q, hq, heq⟩ := List.mem_map.mp hnew
      subst heq
      have hqlt := enumIdx_fst_lt q n.outputs hq
      have hlt : ((st.pnodes.length : Int)).toNat < (st.pnodes ++ [n]).length := by
        show st.pnodes.length < (st.pnodes ++ [n]).length
        simp only [List.length_append, List.length_singleton]
        omega
      simp only [DefInfoOk]
      refine Or.inr (Or.inr ⟨Int.natCast_nonneg _, Int.natCast_nonneg _, hlt, ?_⟩)
      have hget : (st.pnodes ++ [n]).get ⟨((st.pnodes.length : Int)).toNat, hlt⟩ = n := by
        simp only [List.get_eq_getElem]
        exact List.getElem_concat_length st.pnodes n ((st.pnodes.length : Int)).toNat rfl hlt
      rw [hget]
      show q.1 < n.outputs.length
      exact hqlt

theorem StateOk_initState (g : Graph) : StateOk g.inputs.length (initState g) := by
  intro p hp
  simp only [initState] at hp
  obtain ⟨q, hq, heq⟩ := List.mem_map.mp hp
  subst heq
  have hqlt := enumIdx_fst_lt q g.inputs hq
  exact Or.inr (Or.inl ⟨rfl, Int.natCast_nonneg _, hqlt⟩)

theorem StateOk_processNodes {inLen : Nat} :
    ∀ (ns : List GNode) (st : CompileState), StateOk inLen st →
      StateOk inLen (processNodes st ns) := by
  intro ns
  induction ns with
  | nil => intro st h; exact h
  | cons n ns ih => intro st h; exact ih _ (StateOk_processNode h)

theorem compileWithSchema_ok_elim {g : Graph} {sch : Option FunctionSchema} {sf : Bool}
    {o : StaticModuleOptions} {sm : StaticModule}
    (hc : compileWithSchema g sch sf o = Except.ok sm) :
    ∃ inMap outDefs,
      mapOpt (fun n => mapOpt (lookupDef (compState g).defs) n.inputs) (compState g).pnodes
        = some inMap ∧
      mapOpt (lookupDef (compState g).defs) g.outputs = some outDefs ∧
      sm = { opts_ := o, graph_ := g, schema_ := sch, first_input_is_self_ := sf,
             constants_ := (compState g).constants, nodes_ := (compState g).pnodes,
             output_ssa_defs_ := outDefs, node_inputs_ssa_def_map_ := inMap,
             external_values_ := externalValues g } := by
  unfold compileWithSchema at hc
  cases h1 : mapOpt (fun n => mapOpt (lookupDef (compState g).defs) n.inputs)
      (compState g).pnodes with
  | none => rw [h1] at hc; simp at hc
  | some inMap =>
    cases h2 : mapOpt (lookupDef (compState g).defs) g.outputs with
    | none => rw [h1, h2] at hc; simp at hc
    | some outDefs =>
      rw [h1, h2] at hc
      simp only [Except.ok.injEq] at hc
      exact ⟨inMap, outDefs, rfl, rfl, hc.symm⟩

theorem indexMapDefs_ok {g : Graph} {o : StaticModuleOptions} {sm : StaticModule}
    (hc : compile g o = Except.ok sm) {d : DefInfo} (hd : d ∈ indexMapDefs sm) :
    DefInfoOk g.inputs.length (compState g) d := by
  obtain ⟨inMap, outDefs, hin, hout, hsm⟩ := compileWithSchema_ok_elim hc
  subst hsm
  have hok : StateOk g.inputs.length (compState g) :=
    StateOk_processNodes g.nodes (initState g) (StateOk_initState g)
  simp only [indexMapDefs] at hd
  rcases List.mem_append.mp hd with hmap | houtd
  · obtain ⟨row, hrow, hdrow⟩ := List.mem_flatMap.mp hmap
    simp only [id] at hdrow
    obtain ⟨n, hn, hrowof⟩ := mapOpt_mem hin row hrow
    obtain ⟨v, hv, hlook⟩ := mapOpt_mem hrowof d hdrow
    exact hok (v, d) (lookupDef_mem hlook)
  · obtain ⟨v, hv, hlook⟩ := mapOpt_mem hout d houtd
    exact hok (v, d) (lookupDef_mem hlook)

/-- C2: every value-reference pair stored in a compiled module's index map
or output indices resolves to exactly one storage location under the fixed
rule of impl.h lines 101-104: kind CONSTANT_VALUE to constants_[idx], kind
INPUT_VALUE to inputs_[idx], and any kind ≥ 0 to output idx of instruction
number kind.  Resolution is a function of the compiled module alone, so it
is fixed at compile time and never recomputed during a call. -/
theorem C2_value_refs_resolve
    (g : Graph) (o : StaticModuleOptions) (sm : StaticModule)
    (hc : compile g o = Except.ok sm) (d : DefInfo) (hd : d ∈ indexMapDefs sm) :
    (∃ loc, resolveLoc sm d = some loc) ∧
    (d.1 = CONSTANT_VALUE →
      resolveLoc sm d = some (StorageLoc.constantSlot d.2.toNat) ∧
      d.2.toNat < sm.constants_.length) ∧
    (d.1 = INPUT_VALUE →
      resolveLoc sm d = some (StorageLoc.inputSlot d.2.toNat) ∧
      d.2.toNat < sm.graph_.inputs.length) ∧
    (d.1 ≠ CONSTANT_VALUE → d.1 ≠ INPUT_VALUE →
      0 ≤ d.1 ∧ resolveLoc sm d = some (StorageLoc.nodeOutput d.1.toNat d.2.toNat) ∧
      d.1.toNat < sm.nodes_.length) := by
  have hok := indexMapDefs_ok hc hd
  obtain ⟨-, hgr, -, -, hconst, hnodes, -, -⟩ := compileWithSchema_ok_fields hc
  rcases hok with ⟨h1, h2, h3⟩ | ⟨h1, h2, h3⟩ | ⟨h1, h2, h3⟩
  · rw [← hconst] at h3
    have hres : resolveLoc sm d = some (StorageLoc.constantSlot d.2.toNat) := by
      unfold resolveLoc
      rw [if_pos h1, if_pos h3]
    refine ⟨⟨_, hres⟩, fun _ => ⟨hres, h3⟩, ?_, ?_⟩
    · intro hbad
      exact absurd (hbad.symm.trans h1) (by decide)
    · intro hbad _
      exact absurd h1 hbad
  · have hne : d.1 ≠ CONSTANT_VALUE := by rw [h1]; decide
    have h3g : d.2.toNat < sm.graph_.inputs.length := by rw [hgr]; exact h3
    have hres : resolveLoc sm d = some (StorageLoc.inputSlot d.2.toNat) := by
      unfold resolveLoc
      rw [if_neg hne, if_pos h1, if_pos h3g]
    refine ⟨⟨_, hres⟩, ?_, fun _ => ⟨hres, h3g⟩, ?_⟩
    · intro hbad
      exact absurd (hbad.symm.trans h1) (by decide)
    · intro _ hbad
      exact absurd h1 hbad
  · rw [← hnodes] at h3
    obtain ⟨hlt, hj⟩ := h3
    have hne2 : d.1 ≠ CONSTANT_VALUE := by
      intro hbad
      rw [hbad] at h1
      exact absurd h1 (by decide)
    have hne1 : d.1 ≠ INPUT_VALUE := by
      intro hbad
      rw [hbad] at h1
      exact absurd h1 (by decide)
    have hget : sm.nodes_.get? d.1.toNat = some (sm.nodes_.get ⟨d.1.toNat, hlt⟩) :=
      List.get?_eq_get hlt
    have hres : resolveLoc sm d = some (StorageLoc.nodeOutput d.1.toNat d.2.toNat) := by
      unfold resolveLoc
      rw [if_neg hne2, if_neg hne1, if_pos h1]
      simp only [hget]
      rw [if_pos hj]
    refine ⟨⟨_, hres⟩, ?_, ?_, fun _ _ => ⟨h1, hres, hlt⟩⟩
    · intro hbad
      exact absurd hbad hne2
    · intro hbad
      exact absurd hbad hne1

/-- Witness for C2 at the example module with the input reference (-1, 0). -/
theorem C2_value_refs_resolve_witness :
    (∃ loc, resolveLoc exSM ((-1 : Int), (0 : Int)) = some loc) ∧
    (((-1 : Int), (0 : Int)).1 = CONSTANT_VALUE →
      resolveLoc exSM ((-1 : Int), (0 : Int))
        = some (StorageLoc.constantSlot ((-1 : Int), (0 : Int)).2.toNat) ∧
      ((-1 : Int), (0 : Int)).2.toNat < exSM.constants_.length) ∧
    (((-1 : Int), (0 : Int)).1 = INPUT_VALUE →
      resolveLoc exSM ((-1 : Int), (0 : Int))
        = some (StorageLoc.inputSlot ((-1 : Int), (0 : Int)).2.toNat) ∧
      ((-1 : Int), (0 : Int)).2.toNat < exSM.graph_.inputs.length) ∧
    (((-1 : Int), (0 : Int)).1 ≠ CONSTANT_VALUE →
      ((-1 : Int), (0 : Int)).1 ≠ INPUT_VALUE →
      0 ≤ ((-1 : Int), (0 : Int)).1 ∧
      resolveLoc exSM ((-1 : Int), (0 : Int))
        = some (StorageLoc.nodeOutput ((-1 : Int), (0 : Int)).1.toNat
            ((-1 : Int), (0 : Int)).2.toNat) ∧
      ((-1 : Int), (0 : Int)).1.toNat < exSM.nodes_.length) :=
  C2_value_refs_resolve exGraph defaultStaticModuleOptions exSM rfl
    ((-1 : Int), (0 : Int)) (by decide)

end TorchJitStatic
